import Mathlib

/-!
# Takhin broker — verification of the specified client-observable semantics

The repository ships two example client scripts
(`docs/api/examples/python/console_client_example.py` and
`docs/api/examples/python/kafka_client_example.py`); the broker they talk to
is not part of the source tree.  Definitions below marked
`Modelled from the spec:` embed the broker core described by the
specification (partitioned log, transactions, idempotent produce,
consumer-group coordination); the remaining definitions embed the Python
client code that *is* in the source tree (`TakhinClient._request` and
`transactional_produce`).
-/

/-! ## Association-list helpers (finite maps used throughout the model) -/

def alookup {α β : Type} [DecidableEq α] (k : α) : List (α × β) → Option β
  | [] => none
  | (a, b) :: rest => if a = k then some b else alookup k rest

def aupdate {α β : Type} [DecidableEq α] (k : α) (v : β) : List (α × β) → List (α × β)
  | [] => [(k, v)]
  | (a, b) :: rest => if a = k then (k, v) :: rest else (a, b) :: aupdate k v rest

def amodify {α β : Type} [DecidableEq α] (k : α) (f : β → β) :
    List (α × β) → List (α × β)
  | [] => []
  | (a, b) :: rest => if a = k then (a, f b) :: rest else (a, b) :: amodify k f rest

def aerase {α β : Type} [DecidableEq α] (k : α) : List (α × β) → List (α × β)
  | [] => []
  | (a, b) :: rest => if a = k then aerase k rest else (a, b) :: aerase k rest

theorem alookup_aupdate_self {α β : Type} [DecidableEq α] (k : α) (v : β)
    (l : List (α × β)) : alookup k (aupdate k v l) = some v := by
  induction l with
  | nil => simp [aupdate, alookup]
  | cons p rest ih =>
    obtain ⟨a, b⟩ := p
    by_cases h : a = k
    · simp [aupdate, alookup, h]
    · simp [aupdate, alookup, h, ih]

theorem alookup_aupdate_ne {α β : Type} [DecidableEq α] {k k' : α} (v : β)
    (l : List (α × β)) (h : k' ≠ k) :
    alookup k' (aupdate k v l) = alookup k' l := by
  induction l with
  | nil => simp [aupdate, alookup, Ne.symm h]
  | cons p rest ih =>
    obtain ⟨a, b⟩ := p
    by_cases hak : a = k
    · subst hak
      simp [aupdate, alookup, Ne.symm h]
    · simp [aupdate, alookup, hak, ih]

theorem alookup_amodify_self {α β : Type} [DecidableEq α] (k : α) (f : β → β)
    (l : List (α × β)) : alookup k (amodify k f l) = (alookup k l).map f := by
  induction l with
  | nil => simp [amodify, alookup]
  | cons p rest ih =>
    obtain ⟨a, b⟩ := p
    by_cases h : a = k
    · simp [amodify, alookup, h]
    · simp [amodify, alookup, h, ih]

theorem alookup_amodify_ne {α β : Type} [DecidableEq α] {k k' : α} (f : β → β)
    (l : List (α × β)) (h : k' ≠ k) :
    alookup k' (amodify k f l) = alookup k' l := by
  induction l with
  | nil => simp [amodify, alookup]
  | cons p rest ih =>
    obtain ⟨a, b⟩ := p
    by_cases hak : a = k
    · subst hak
      simp [amodify, alookup, Ne.symm h]
    · simp [amodify, alookup, hak, ih]

theorem alookup_aerase_self {α β : Type} [DecidableEq α] (k : α)
    (l : List (α × β)) : alookup k (aerase k l) = none := by
  induction l with
  | nil => simp [aerase, alookup]
  | cons p rest ih =>
    obtain ⟨a, b⟩ := p
    by_cases h : a = k
    · simpa [aerase, alookup, h] using ih
    · simpa [aerase, alookup, h] using ih

theorem alookup_aerase_ne {α β : Type} [DecidableEq α] {k k' : α}
    (l : List (α × β)) (h : k' ≠ k) :
    alookup k' (aerase k l) = alookup k' l := by
  induction l with
  | nil => simp [aerase, alookup]
  | cons p rest ih =>
    obtain ⟨a, b⟩ := p
    by_cases hak : a = k
    · subst hak
      simp [aerase, alookup, Ne.symm h, ih]
    · simp [aerase, alookup, hak, ih]

theorem mem_aupdate {α β : Type} [DecidableEq α] {k : α} {v : β} {q : α × β}
    {l : List (α × β)} (h : q ∈ aupdate k v l) : q ∈ l ∨ q = (k, v) := by
  induction l with
  | nil => simp [aupdate] at h; simp [h]
  | cons p rest ih =>
    obtain ⟨a, b⟩ := p
    by_cases hak : a = k
    · subst hak
      simp [aupdate] at h
      rcases h with h | h
      · right; simp [h]
      · left; simp [h]
    · simp [aupdate, hak] at h
      rcases h with h | h
      · left; simp [h]
      · rcases ih h with hh | hh
        · left; exact List.mem_cons_of_mem _ hh
        · right; exact hh

theorem mem_amodify {α β : Type} [DecidableEq α] {k : α} {f : β → β} {q : α × β}
    {l : List (α × β)} (h : q ∈ amodify k f l) :
    q ∈ l ∨ ∃ b, (k, b) ∈ l ∧ q = (k, f b) := by
  induction l with
  | nil => simp [amodify] at h
  | cons p rest ih =>
    obtain ⟨a, b⟩ := p
    by_cases hak : a = k
    · subst hak
      simp [amodify] at h
      rcases h with h | h
      · right; exact ⟨b, by simp, by simp [h]⟩
      · left; exact List.mem_cons_of_mem _ h
    · simp [amodify, hak] at h
      rcases h with h | h
      · left; simp [h]
      · rcases ih h with hh | hh
        · left; exact List.mem_cons_of_mem _ hh
        · right
          obtain ⟨b', hb', hq⟩ := hh
          exact ⟨b', List.mem_cons_of_mem _ hb', hq⟩

theorem mem_aerase {α β : Type} [DecidableEq α] {k : α} {q : α × β}
    {l : List (α × β)} (h : q ∈ aerase k l) : q ∈ l := by
  induction l with
  | nil => simp [aerase] at h
  | cons p rest ih =>
    obtain ⟨a, b⟩ := p
    by_cases hak : a = k
    · simp [aerase, hak] at h
      exact List.mem_cons_of_mem _ (ih h)
    · simp [aerase, hak] at h
      rcases h with h | h
      · simp [h]
      · exact List.mem_cons_of_mem _ (ih h)

theorem mem_of_alookup_eq_some {α β : Type} [DecidableEq α] {k : α} {v : β}
    {l : List (α × β)} (h : alookup k l = some v) : (k, v) ∈ l := by
  induction l with
  | nil => simp [alookup] at h
  | cons p rest ih =>
    obtain ⟨a, b⟩ := p
    by_cases hak : a = k
    · subst hak
      simp [alookup] at h
      simp [h]
    · simp [alookup, hak] at h
      exact List.mem_cons_of_mem _ (ih h)

/-! ## Records and the per-partition log

Modelled from the spec: the Log Segment Store / Partition Manager are not in
the source tree.  Per spec §3 a record has an optional key, a value, a
timestamp and, for transactional produce, the identity of the transaction
instance that wrote it (transactional id together with the producer epoch,
per the invariant that the epoch strictly increases across restarts).  The
partition log is append-only and the high-water mark is the offset of the
next record to be written. -/

structure RecordData where
  key : Option String
  value : String
  timestamp : Nat
deriving DecidableEq

structure Record where
  key : Option String
  value : String
  timestamp : Nat
  txn : Option (String × Nat)
deriving DecidableEq

structure Partition where
  log : List Record
deriving DecidableEq

def Partition.hwm (p : Partition) : Nat := p.log.length

def emptyPartition : Partition := ⟨[]⟩

def mkRecord (rd : RecordData) (txn : Option (String × Nat)) : Record :=
  ⟨rd.key, rd.value, rd.timestamp, txn⟩

/-- Modelled from the spec: `append(key, value, timestamp)` assigns next
offset = current high-water mark, appends, advances the high-water mark, and
returns the new partition state together with the assigned offset. -/
def Partition.append (p : Partition) (r : Record) : Partition × Nat :=
  (⟨p.log ++ [r]⟩, p.hwm)

/-- Runs a sequence of appends against a partition, collecting the offset
assigned to each append, in append order. -/
def runAppends (p : Partition) : List Record → Partition × List Nat
  | [] => (p, [])
  | r :: rs =>
    let step1 := p.append r
    let rest := runAppends step1.1 rs
    (rest.1, step1.2 :: rest.2)

theorem Partition.append_hwm (p : Partition) (r : Record) :
    (p.append r).1.hwm = p.hwm + 1 := by
  simp [Partition.append, Partition.hwm]

theorem runAppends_offsets (p : Partition) (rs : List Record) :
    (runAppends p rs).2 = (List.range rs.length).map (· + p.hwm) := by
  induction rs generalizing p with
  | nil => simp [runAppends]
  | cons r rs ih =>
    simp only [runAppends, ih, Partition.append, Partition.hwm, List.length_cons,
      List.range_succ_eq_map, List.map_cons, List.map_map, List.cons.injEq]
    refine ⟨by omega, ?_⟩
    apply List.map_congr_left
    intro a _
    simp only [Function.comp, List.length_append, List.length_cons, List.length_nil]
    omega

/-! ## Transactions and consumer-visible fetch

Modelled from the spec: transaction state and the last-stable-offset gate of
§4.4/§9 are not in the source tree.  A transaction instance is identified by
(transactional id, producer epoch); transactional records carry that tag.
The last stable offset of a partition is the minimum offset covered by a
still-open transaction (the high-water mark when none is).
isolationLevel=readUncommitted sees everything below the high-water mark;
isolationLevel=readCommitted sees only offsets below the last stable offset
and skips abort-marked records. -/

inductive TxnStatus
  | ongoing
  | committed
  | aborted
deriving DecidableEq

abbrev TxnTable := List ((String × Nat) × TxnStatus)

def txnStatusOf (txns : TxnTable) (r : Record) : Option TxnStatus :=
  match r.txn with
  | none => none
  | some tag => alookup tag txns

def recordOpenTxn (txns : TxnTable) (r : Record) : Bool :=
  txnStatusOf txns r == some .ongoing

def recordAbortedTxn (txns : TxnTable) (r : Record) : Bool :=
  txnStatusOf txns r == some .aborted

def lastStableOffset (txns : TxnTable) (p : Partition) : Nat :=
  p.log.findIdx (recordOpenTxn txns)

inductive Isolation
  | readUncommitted
  | readCommitted
deriving DecidableEq

/-- Pairs every element of a list with its index, starting at `n` (used to
pair records with their offsets). -/
def enumOfs {α : Type} : Nat → List α → List (Nat × α)
  | _, [] => []
  | n, r :: rs => (n, r) :: enumOfs (n + 1) rs

/-- Modelled from the spec: the set of records a consumer at the given
isolation level may see in a partition. -/
def fetchVisible (txns : TxnTable) (p : Partition) (iso : Isolation) :
    List (Nat × Record) :=
  match iso with
  | .readUncommitted => enumOfs 0 p.log
  | .readCommitted =>
    (enumOfs 0 p.log).filter
      (fun ir => decide (ir.1 < lastStableOffset txns p) && !recordAbortedTxn txns ir.2)

/-- Modelled from the spec: `fetch(topic, partition, offset, limit,
isolationLevel)` — the visible records with offset ≥ the requested offset,
up to `limit` of them. -/
def fetchRecords (txns : TxnTable) (p : Partition) (off limit : Nat)
    (iso : Isolation) : List (Nat × Record) :=
  ((fetchVisible txns p iso).filter (fun ir => decide (off ≤ ir.1))).take limit

theorem mem_enumOfs {n i : Nat} {r : Record} {l : List Record}
    (h : (i, r) ∈ enumOfs n l) :
    ∃ j, j < l.length ∧ i = n + j ∧ l[j]? = some r := by
  induction l generalizing n with
  | nil => simp [enumOfs] at h
  | cons a as ih =>
    simp [enumOfs] at h
    rcases h with ⟨h1, h2⟩ | h
    · exact ⟨0, by simp, by omega, by simp [h2]⟩
    · obtain ⟨j, hj, hi, hg⟩ := ih h
      exact ⟨j + 1, by simpa using hj, by omega, by simpa using hg⟩

theorem enumOfs_mem_of_get {l : List Record} {j : Nat} {r : Record} (n : Nat)
    (hg : l[j]? = some r) : (n + j, r) ∈ enumOfs n l := by
  induction l generalizing n j with
  | nil => simp at hg
  | cons a as ih =>
    cases j with
    | zero => simp at hg; simp [enumOfs, hg]
    | succ j =>
      simp at hg
      simp [enumOfs]
      have hn : n + (j + 1) = n + 1 + j := by omega
      rw [hn]
      exact ih (n + 1) hg

theorem findIdx_le_of_get {l : List Record} {q : Record → Bool} {j : Nat}
    {r : Record} (hg : l[j]? = some r) (hq : q r = true) :
    l.findIdx q ≤ j := by
  induction l generalizing j with
  | nil => simp at hg
  | cons a as ih =>
    cases j with
    | zero =>
      simp at hg
      subst hg
      simp [List.findIdx_cons, hq]
    | succ j =>
      simp at hg
      by_cases ha : q a
      · simp [List.findIdx_cons, ha]
      · simp [List.findIdx_cons, ha]
        exact ih hg

theorem get_of_lt_findIdx {l : List Record} {q : Record → Bool} {j : Nat}
    {r : Record} (hg : l[j]? = some r) (hj : j < l.findIdx q) :
    q r = false := by
  by_cases hq : q r = true
  · have := findIdx_le_of_get hg hq
    omega
  · simpa using hq

/-! ## Consumer groups

Modelled from the spec: the Consumer Group Coordinator of §4.5 is not in the
source tree.  A group carries its state-machine state (Empty →
PreparingRebalance → Stable → Dead), a generation counter bumped each time a
rebalance completes, its members with their last-heartbeat times, the time
at which it last became (and stayed) memberless, and its committed-offsets
table. -/

inductive GState
  | emptyG
  | preparingRebalance
  | stable
  | dead
deriving DecidableEq

structure ConsumerGroup where
  state : GState
  generation : Nat
  members : List (String × Nat)
  emptySince : Option Nat
  offsets : List ((String × Nat) × Nat)
deriving DecidableEq

def freshGroup : ConsumerGroup := ⟨.emptyG, 0, [], none, []⟩

/-- Modelled from the spec: `joinGroup` — a join on a Dead group resurrects
it into PreparingRebalance; a join on a live group adds the member and
triggers PreparingRebalance. -/
def ConsumerGroup.joinGroup (g : ConsumerGroup) (m : String) (now : Nat) : ConsumerGroup :=
  match g.state with
  | .dead =>
    { state := .preparingRebalance, generation := g.generation,
      members := [(m, now)], emptySince := none, offsets := g.offsets }
  | _ =>
    { g with state := .preparingRebalance,
             members := aupdate m now g.members, emptySince := none }

/-- Modelled from the spec: `syncGroup` — completes a rebalance: the group
becomes Stable and the generation counter is incremented. -/
def ConsumerGroup.syncGroup (g : ConsumerGroup) : ConsumerGroup :=
  if g.state = .preparingRebalance then
    { g with state := .stable, generation := g.generation + 1 }
  else g

/-- Modelled from the spec: a member leaving; when the last member leaves
the group records when it became empty. -/
def ConsumerGroup.leaveGroup (g : ConsumerGroup) (m : String) (now : Nat) : ConsumerGroup :=
  if g.state = .dead then g
  else
    let ms := aerase m g.members
    { g with members := ms, state := .preparingRebalance,
             emptySince := if ms.isEmpty then some now else g.emptySince }

/-- Modelled from the spec: `heartbeat` resets the member's session timer
(the caller checks the member exists first). -/
def ConsumerGroup.heartbeatMember (g : ConsumerGroup) (m : String) (now : Nat) : ConsumerGroup :=
  { g with members := aupdate m now g.members }

/-- Modelled from the spec: the session-timeout sweep.  Members whose last
heartbeat is older than the session window are evicted (re-entering
PreparingRebalance); a group that has had zero members for longer than the
session timeout transitions to Dead. -/
def ConsumerGroup.tick (timeout now : Nat) (g : ConsumerGroup) : ConsumerGroup :=
  if g.state = .dead then g
  else if (g.members.filter (fun mh => decide (now ≤ mh.2 + timeout))).isEmpty then
    if g.members.isEmpty then
      match g.emptySince with
      | some t0 =>
        if t0 + timeout < now then { g with state := .dead } else g
      | none => { g with emptySince := some now }
    else
      { g with members := [], emptySince := some now,
               state := .preparingRebalance }
  else if (g.members.filter (fun mh => decide (now ≤ mh.2 + timeout))).length
      = g.members.length then g
  else { g with members := g.members.filter (fun mh => decide (now ≤ mh.2 + timeout)),
                state := .preparingRebalance }

/-! ## The broker state and its operations

Modelled from the spec: the broker core (Topic Registry §4.1, Partition
Manager §4.2, Producer Front-End §4.3, Consumer Group Coordinator §4.5) is
not in the source tree.  `topics` maps a topic name to its partitions
(partition id = list index); `txns` records the status of every transaction
instance (transactional id, epoch); `epochs` records the current producer
epoch of each transactional id; `dedup` records, per (producer id, topic,
partition, sequence number), the offset assigned when that sequence number
was first appended; `groups` holds the consumer groups.  Topic deletion
removes the partitions and their logs, and with them the committed offsets
recorded against the deleted topic (required by the spec invariant that a
committed offset never exceeds the partition's high-water mark). -/

structure Broker where
  topics : List (String × List Partition)
  txns : TxnTable
  epochs : List (String × Nat)
  dedup : List ((String × String × Nat × Nat) × Nat)
  groups : List (String × ConsumerGroup)
deriving DecidableEq

def initialBroker : Broker := ⟨[], [], [], [], []⟩

def getPartition (b : Broker) (t : String) (i : Nat) : Option Partition :=
  match alookup t b.topics with
  | none => none
  | some ps => ps[i]?

def setPartition (b : Broker) (t : String) (i : Nat) (p : Partition) : Broker :=
  { b with topics := amodify t (fun ps => ps.set i p) b.topics }

inductive Reply
  | ok
  | offsetAssigned (offset : Nat) (partition : Nat)
  | errAlreadyExists
  | errNotFound
  | errOffsetOutOfRange
  | errIllegalGeneration
  | errUnknownMember
  | errTxnConflict
deriving DecidableEq

inductive BrokerOp
  | createTopic (name : String) (nparts : Nat)
  | deleteTopic (name : String)
  | produce (topic : String) (part : Nat) (rd : RecordData)
  | produceIdem (pid : String) (seq : Nat) (topic : String) (part : Nat) (rd : RecordData)
  | produceTxn (tid : String) (topic : String) (part : Nat) (rd : RecordData)
  | beginTxn (tid : String)
  | commitTxn (tid : String)
  | abortTxn (tid : String)
  | commitOffset (gid : String) (gen : Nat) (topic : String) (part : Nat) (off : Nat)
  | joinGroup (gid : String) (m : String) (now : Nat)
  | syncGroup (gid : String)
  | leaveGroup (gid : String) (m : String) (now : Nat)
  | heartbeat (gid : String) (m : String) (now : Nat)
  | tick (timeout now : Nat)
deriving DecidableEq

/-- Shared append path of the Producer Front-End: appends one record to the
given partition, returning the assigned offset (= high-water mark before the
append) and the partition id. -/
def stepAppend (b : Broker) (t : String) (i : Nat) (r : Record) :
    Broker × Reply :=
  match getPartition b t i with
  | none => (b, .errNotFound)
  | some p => (setPartition b t i (p.append r).1, .offsetAssigned p.hwm i)

/-- Modelled from the spec: one mutating broker operation.  `fetchRecords`
and the pure queries below are side-effect free and are modelled as plain
functions of the state. -/
def Broker.step (b : Broker) : BrokerOp → Broker × Reply
  | .createTopic name nparts =>
    match alookup name b.topics with
    | some _ => (b, .errAlreadyExists)
    | none =>
      ({ b with topics := (name, List.replicate nparts emptyPartition) :: b.topics }, .ok)
  | .deleteTopic name =>
    match alookup name b.topics with
    | none => (b, .errNotFound)
    | some _ =>
      ({ b with topics := aerase name b.topics,
                groups := b.groups.map (fun gp =>
                  (gp.1, { gp.2 with offsets :=
                    gp.2.offsets.filter (fun e => e.1.1 ≠ name) })) }, .ok)
  | .produce t i rd => stepAppend b t i (mkRecord rd none)
  | .produceIdem pid seq t i rd =>
    match alookup (pid, t, i, seq) b.dedup with
    | some off => (b, .offsetAssigned off i)
    | none =>
      match getPartition b t i with
      | none => (b, .errNotFound)
      | some p =>
        let b1 := setPartition b t i (p.append (mkRecord rd none)).1
        ({ b1 with dedup := aupdate (pid, t, i, seq) p.hwm b.dedup },
         .offsetAssigned p.hwm i)
  | .produceTxn tid t i rd =>
    match alookup tid b.epochs with
    | none => (b, .errTxnConflict)
    | some e =>
      match alookup (tid, e) b.txns with
      | some .ongoing => stepAppend b t i (mkRecord rd (some (tid, e)))
      | _ => (b, .errTxnConflict)
  | .beginTxn tid =>
    match alookup tid b.epochs with
    | none =>
      ({ b with epochs := aupdate tid 0 b.epochs,
                txns := aupdate (tid, 0) .ongoing b.txns }, .ok)
    | some e =>
      match alookup (tid, e) b.txns with
      | some .ongoing => (b, .errTxnConflict)
      | _ =>
        ({ b with epochs := aupdate tid (e + 1) b.epochs,
                  txns := aupdate (tid, e + 1) .ongoing b.txns }, .ok)
  | .commitTxn tid =>
    match alookup tid b.epochs with
    | none => (b, .errTxnConflict)
    | some e =>
      match alookup (tid, e) b.txns with
      | some .ongoing =>
        ({ b with txns := aupdate (tid, e) .committed b.txns }, .ok)
      | _ => (b, .errTxnConflict)
  | .abortTxn tid =>
    match alookup tid b.epochs with
    | none => (b, .errTxnConflict)
    | some e =>
      match alookup (tid, e) b.txns with
      | some .ongoing =>
        ({ b with txns := aupdate (tid, e) .aborted b.txns }, .ok)
      | _ => (b, .errTxnConflict)
  | .commitOffset gid gen t i off =>
    match alookup gid b.groups with
    | none => (b, .errNotFound)
    | some g =>
      if gen ≠ g.generation then (b, .errIllegalGeneration)
      else
        match getPartition b t i with
        | none => (b, .errNotFound)
        | some p =>
          if p.hwm < off then (b, .errOffsetOutOfRange)
          else
            let f := fun (g : ConsumerGroup) =>
              { g with offsets := aupdate (t, i) off g.offsets }
            ({ b with groups := amodify gid f b.groups }, .ok)
  | .joinGroup gid m now =>
    match alookup gid b.groups with
    | none =>
      ({ b with groups := (gid, freshGroup.joinGroup m now) :: b.groups }, .ok)
    | some _ =>
      ({ b with groups := amodify gid (fun g => g.joinGroup m now) b.groups }, .ok)
  | .syncGroup gid =>
    match alookup gid b.groups with
    | none => (b, .errNotFound)
    | some _ =>
      ({ b with groups := amodify gid (fun g => g.syncGroup) b.groups }, .ok)
  | .leaveGroup gid m now =>
    match alookup gid b.groups with
    | none => (b, .errNotFound)
    | some _ =>
      ({ b with groups := amodify gid (fun g => g.leaveGroup m now) b.groups }, .ok)
  | .heartbeat gid m now =>
    match alookup gid b.groups with
    | none => (b, .errNotFound)
    | some g =>
      if (alookup m g.members).isSome then
        ({ b with groups := amodify gid (fun g => g.heartbeatMember m now) b.groups }, .ok)
      else (b, .errUnknownMember)
  | .tick timeout now =>
    ({ b with groups := b.groups.map (fun gp => (gp.1, gp.2.tick timeout now)) }, .ok)

/-- Modelled from the spec: `fetchCommitted(groupId, topic, partition)` —
the last committed offset, or `none` ("no commit") if none was ever
recorded. -/
def fetchCommitted (b : Broker) (gid : String) (t : String) (i : Nat) :
    Option Nat :=
  match alookup gid b.groups with
  | none => none
  | some g => alookup (t, i) g.offsets

/-- Modelled from the spec: `list()` of the Topic Registry /
`GET /topics` — every topic with its partition count and the per-partition
high-water marks. -/
def listTopics (b : Broker) : List (String × Nat × List (Nat × Nat)) :=
  b.topics.map (fun tp =>
    (tp.1, tp.2.length, (enumOfs 0 tp.2).map (fun ip => (ip.1, ip.2.hwm))))

/-! ## Basic lemmas about the broker state -/

theorem enumOfs_length {α : Type} (n : Nat) (l : List α) :
    (enumOfs n l).length = l.length := by
  induction l generalizing n with
  | nil => simp [enumOfs]
  | cons a as ih => simp [enumOfs, ih]

theorem getPartition_setPartition_self {b : Broker} {t : String} {i : Nat}
    {p p' : Partition} (h : getPartition b t i = some p) :
    getPartition (setPartition b t i p') t i = some p' := by
  unfold getPartition at h ⊢
  unfold setPartition
  cases hl : alookup t b.topics with
  | none => simp [hl] at h
  | some ps =>
    simp only [hl] at h
    simp only [alookup_amodify_self, hl, Option.map_some]
    have hi : i < ps.length := by
      by_contra hi
      rw [List.getElem?_eq_none (by omega)] at h
      simp at h
    simp [List.getElem?_set_self, hi]

theorem getPartition_setPartition_other {b : Broker} {t t' : String}
    {i i' : Nat} {p' : Partition} (h : (t, i) ≠ (t', i')) :
    getPartition (setPartition b t' i' p') t i = getPartition b t i := by
  unfold getPartition setPartition
  by_cases ht : t = t'
  · subst ht
    have hi : i ≠ i' := by
      intro hh
      exact h (by rw [hh])
    cases hl : alookup t b.topics with
    | none => simp [alookup_amodify_self, hl]
    | some ps => simp [alookup_amodify_self, hl, List.getElem?_set_ne (Ne.symm hi)]
  · simp [alookup_amodify_ne _ _ ht]

/-! ## Claim theorems: partition append (C1) -/

/-- C1.  For every sequence of append operations to a single partition, the
offsets assigned are exactly 0, 1, 2, ... in append order, with no gaps and
no repeats (concurrent producers are serialized through the single append
path, so every concurrent execution is one such sequence): each append
assigns next offset = current high-water mark, appends the record, advances
the high-water mark, and at the broker level `produce` returns the assigned
offset together with the partition id. -/
theorem claim_C1_append_offsets :
    (∀ rs : List Record,
       (runAppends emptyPartition rs).2 = List.range rs.length ∧
       ((runAppends emptyPartition rs).2).Nodup)
  ∧ (∀ (p : Partition) (r : Record),
       (p.append r).2 = p.hwm ∧
       (p.append r).1.log = p.log ++ [r] ∧
       (p.append r).1.hwm = p.hwm + 1)
  ∧ (∀ (b : Broker) (t : String) (i : Nat) (rd : RecordData) (p : Partition),
       getPartition b t i = some p →
       (b.step (.produce t i rd)).2 = .offsetAssigned p.hwm i ∧
       getPartition (b.step (.produce t i rd)).1 t i =
         some ⟨p.log ++ [mkRecord rd none]⟩) := by
  refine ⟨?_, ?_, ?_⟩
  · intro rs
    have h0 : (runAppends emptyPartition rs).2 = List.range rs.length := by
      rw [runAppends_offsets emptyPartition rs]
      simp [emptyPartition, Partition.hwm]
    exact ⟨h0, by rw [h0]; exact List.nodup_range _⟩
  · intro p r
    exact ⟨rfl, rfl, by simp [Partition.append, Partition.hwm]⟩
  · intro b t i rd p hp
    have hb : b.step (.produce t i rd) =
        (setPartition b t i (p.append (mkRecord rd none)).1,
         .offsetAssigned p.hwm i) := by
      simp only [Broker.step, stepAppend, hp]
    rw [hb]
    exact ⟨rfl, getPartition_setPartition_self hp⟩

/-- Witness for C1 at a concrete input: three appends to a fresh partition
are assigned offsets `[0, 1, 2]`, and a broker-level produce on a fresh
topic returns offset 0 on partition 0. -/
theorem claim_C1_append_offsets_witness :
    (runAppends emptyPartition
      [⟨some "user-1", "login", 0, none⟩,
       ⟨some "user-2", "purchase", 1, none⟩,
       ⟨some "user-1", "logout", 2, none⟩]).2 = List.range 3 ∧
    ((initialBroker.step (.createTopic "events" 3)).1.step
        (.produce "events" 0 ⟨some "user-1", "login", 0⟩)).2 =
      .offsetAssigned 0 0 := by
  constructor
  · exact (claim_C1_append_offsets.1 _).1
  · exact ((claim_C1_append_offsets.2.2
      (initialBroker.step (.createTopic "events" 3)).1 "events" 0
      ⟨some "user-1", "login", 0⟩ emptyPartition (by decide)).1).trans (by decide)

/-! ## Claim theorems: fetch isolation (C2) -/

/-- C2.  A fetch with isolationLevel=readCommitted never returns a record
belonging to an open or aborted transaction — it returns only records with
offset below the last stable offset — while a fetch with
isolationLevel=readUncommitted returns all records up to the high-water
mark, in-flight and aborted transactional records included. -/
theorem claim_C2_fetch_isolation (txns : TxnTable) (p : Partition)
    (off limit : Nat) :
    (∀ ir ∈ fetchRecords txns p off limit .readCommitted,
       ir.1 < lastStableOffset txns p ∧
       recordOpenTxn txns ir.2 = false ∧
       recordAbortedTxn txns ir.2 = false)
  ∧ fetchRecords txns p 0 p.hwm .readUncommitted = enumOfs 0 p.log
  ∧ (∀ (j : Nat) (r : Record), p.log[j]? = some r →
       (j, r) ∈ fetchRecords txns p 0 p.hwm .readUncommitted) := by
  have hRU : fetchRecords txns p 0 p.hwm .readUncommitted = enumOfs 0 p.log := by
    unfold fetchRecords fetchVisible
    rw [List.filter_eq_self.mpr (by intro a _; simp)]
    have hlen : (enumOfs 0 p.log).length = p.hwm := by
      rw [enumOfs_length]; rfl
    rw [← hlen, List.take_length]
  refine ⟨?_, hRU, ?_⟩
  · intro ir hir
    obtain ⟨i, r⟩ := ir
    have h1 : (i, r) ∈ (fetchVisible txns p .readCommitted).filter
        (fun ir => decide (off ≤ ir.1)) := by
      unfold fetchRecords at hir
      exact List.mem_of_mem_take hir
    have h2 : (i, r) ∈ fetchVisible txns p .readCommitted :=
      (List.mem_filter.mp h1).1
    unfold fetchVisible at h2
    have h3 := List.mem_filter.mp h2
    have hlso : i < lastStableOffset txns p := by
      have := h3.2
      simp at this
      exact this.1
    have haborted : recordAbortedTxn txns r = false := by
      have := h3.2
      simp at this
      exact this.2
    refine ⟨hlso, ?_, haborted⟩
    obtain ⟨j, hj, hij, hget⟩ := mem_enumOfs h3.1
    have : i = j := by omega
    subst this
    exact get_of_lt_findIdx hget hlso
  · intro j r hget
    rw [hRU]
    have := enumOfs_mem_of_get 0 hget
    simpa using this

/-- Witness for C2 at a concrete input: with one in-flight and one aborted
transactional record in the log, the readCommitted fetch exposes only the
plain record at offset 0, and the readUncommitted fetch exposes the
in-flight record at offset 1. -/
theorem claim_C2_fetch_isolation_witness :
    ((0 : Nat) < lastStableOffset
        [(("t1", 0), .ongoing), (("t2", 0), .aborted)]
        ⟨[⟨none, "plain", 0, none⟩,
          ⟨none, "inflight", 1, some ("t1", 0)⟩,
          ⟨none, "rolledback", 2, some ("t2", 0)⟩]⟩ ∧
      recordOpenTxn [(("t1", 0), .ongoing), (("t2", 0), .aborted)]
        ⟨none, "plain", 0, none⟩ = false ∧
      recordAbortedTxn [(("t1", 0), .ongoing), (("t2", 0), .aborted)]
        ⟨none, "plain", 0, none⟩ = false) ∧
    ((1 : Nat), (⟨none, "inflight", 1, some ("t1", 0)⟩ : Record)) ∈
      fetchRecords [(("t1", 0), .ongoing), (("t2", 0), .aborted)]
        ⟨[⟨none, "plain", 0, none⟩,
          ⟨none, "inflight", 1, some ("t1", 0)⟩,
          ⟨none, "rolledback", 2, some ("t2", 0)⟩]⟩ 0
        (Partition.hwm ⟨[⟨none, "plain", 0, none⟩,
          ⟨none, "inflight", 1, some ("t1", 0)⟩,
          ⟨none, "rolledback", 2, some ("t2", 0)⟩]⟩) .readUncommitted :=
  ⟨(claim_C2_fetch_isolation _ _ 0 10).1 (0, ⟨none, "plain", 0, none⟩)
     (by decide),
   (claim_C2_fetch_isolation _ _ 0 0).2.2 1 ⟨none, "inflight", 1, some ("t1", 0)⟩
     (by decide)⟩

/-! ## Claim theorems: topic creation (C7) -/

theorem enumOfs_replicate_hwm (k n : Nat) :
    (enumOfs k (List.replicate n emptyPartition)).map (fun ip => (ip.1, ip.2.hwm))
      = (List.range' k n).map (fun i => (i, 0)) := by
  induction n generalizing k with
  | zero => simp [enumOfs]
  | succ n ih =>
    rw [List.replicate_succ, List.range'_succ k n 1]
    simp only [enumOfs, List.map_cons, ih]
    simp [emptyPartition, Partition.hwm]

/-- C7.  `createTopic` fails with AlreadyExists when a topic of that name is
present, and otherwise allocates partitions 0..partitionCount-1, all with
high-water mark 0; listing topics right after creation shows the topic with
partitionCount = n and n partition entries each with highWaterMark = 0. -/
theorem claim_C7_createTopic (b : Broker) (name : String) (n : Nat) :
    ((alookup name b.topics).isSome →
       b.step (.createTopic name n) = (b, .errAlreadyExists))
  ∧ (alookup name b.topics = none →
       (b.step (.createTopic name n)).2 = .ok ∧
       (name, n, (List.range n).map (fun i => (i, 0))) ∈
         listTopics (b.step (.createTopic name n)).1 ∧
       (∀ i, i < n →
         getPartition (b.step (.createTopic name n)).1 name i =
           some emptyPartition) ∧
       (∀ i, i < n →
         ∃ p, getPartition (b.step (.createTopic name n)).1 name i = some p ∧
           p.hwm = 0)) := by
  constructor
  · intro h
    obtain ⟨ps, hps⟩ := Option.isSome_iff_exists.mp h
    simp only [Broker.step, hps]
  · intro h
    have hb : b.step (.createTopic name n) =
        ({ b with topics := (name, List.replicate n emptyPartition) :: b.topics },
         .ok) := by
      simp only [Broker.step, h]
    rw [hb]
    refine ⟨rfl, ?_, ?_, ?_⟩
    · simp only [listTopics, List.map_cons, List.length_replicate,
        enumOfs_replicate_hwm 0 n, ← List.range_eq_range' n]
      exact List.mem_cons_self _ _
    · intro i hi
      simp [getPartition, alookup, List.getElem?_replicate, hi]
    · intro i hi
      refine ⟨emptyPartition, ?_, rfl⟩
      simp [getPartition, alookup, List.getElem?_replicate, hi]

/-- Witness for C7: creating "events" with 3 partitions on the empty broker
succeeds and the listing shows ("events", 3, [(0,0), (1,0), (2,0)]); a second
create of "events" fails with AlreadyExists. -/
theorem claim_C7_createTopic_witness :
    ((initialBroker.step (.createTopic "events" 3)).2 = .ok ∧
     ("events", 3, [(0, 0), (1, 0), (2, 0)]) ∈
       listTopics (initialBroker.step (.createTopic "events" 3)).1) ∧
    (initialBroker.step (.createTopic "events" 3)).1.step
        (.createTopic "events" 3) =
      ((initialBroker.step (.createTopic "events" 3)).1, .errAlreadyExists) := by
  have h2 := (claim_C7_createTopic initialBroker "events" 3).2 (by decide)
  refine ⟨⟨h2.1, ?_⟩, ?_⟩
  · have := h2.2.1
    simpa using this
  · exact (claim_C7_createTopic
      (initialBroker.step (.createTopic "events" 3)).1 "events" 3).1 (by decide)

/-! ## Claim theorems: offset commit (C6) -/

/-- C6.  `commitOffset` fails with IllegalGeneration when the caller's
generation is stale, fails with OffsetOutOfRange when the offset exceeds the
partition's high-water mark, and otherwise records the offset so that a
subsequent `fetchCommitted` for the same group, topic and partition returns
exactly the committed value; `fetchCommitted` returns "no commit" (`none`)
when no offset was ever committed for that key. -/
theorem claim_C6_commitOffset (b : Broker) (gid : String) (gen : Nat)
    (t : String) (i off : Nat) (g : ConsumerGroup) (p : Partition) :
    (alookup gid b.groups = some g → gen ≠ g.generation →
       b.step (.commitOffset gid gen t i off) = (b, .errIllegalGeneration))
  ∧ (alookup gid b.groups = some g → gen = g.generation →
       getPartition b t i = some p → p.hwm < off →
       b.step (.commitOffset gid gen t i off) = (b, .errOffsetOutOfRange))
  ∧ (alookup gid b.groups = some g → gen = g.generation →
       getPartition b t i = some p → off ≤ p.hwm →
       (b.step (.commitOffset gid gen t i off)).2 = .ok ∧
       fetchCommitted (b.step (.commitOffset gid gen t i off)).1 gid t i =
         some off)
  ∧ (alookup gid b.groups = some g → alookup (t, i) g.offsets = none →
       fetchCommitted b gid t i = none) := by
  refine ⟨?_, ?_, ?_, ?_⟩
  · intro hg hgen
    simp only [Broker.step, hg]
    simp [hgen]
  · intro hg hgen hp hoff
    simp only [Broker.step, hg, hp]
    simp [hgen, hoff]
  · intro hg hgen hp hoff
    have hb : b.step (.commitOffset gid gen t i off) =
        ({ b with groups := amodify gid (fun g => { g with offsets := aupdate (t, i) off g.offsets }) b.groups }, .ok) := by
      simp only [Broker.step, hg, hp]
      simp [hgen, Nat.not_lt.mpr hoff]
    rw [hb]
    refine ⟨rfl, ?_⟩
    simp only [fetchCommitted, alookup_amodify_self, hg, Option.map_some]
    exact alookup_aupdate_self _ _ _
  · intro hg hnone
    simp [fetchCommitted, hg, hnone]

/-- Broker used by several witnesses: topic "events" with one partition
holding one record, and consumer group "demo-consumer-group" that has one
member and has completed one rebalance (generation 1). -/
def exampleBroker : Broker :=
  ((((initialBroker.step (.createTopic "events" 1)).1.step
      (.produce "events" 0 ⟨some "user-1", "login", 0⟩)).1.step
      (.joinGroup "demo-consumer-group" "m1" 0)).1.step
      (.syncGroup "demo-consumer-group")).1

/-- Witness for C6 on `exampleBroker`: a stale-generation commit fails,
committing offset 5 (> high-water mark 1) fails with OffsetOutOfRange,
committing offset 1 succeeds and is read back by `fetchCommitted`, and an
uncommitted key reads back as `none`. -/
theorem claim_C6_commitOffset_witness :
    exampleBroker.step (.commitOffset "demo-consumer-group" 0 "events" 0 1) =
      (exampleBroker, .errIllegalGeneration) ∧
    exampleBroker.step (.commitOffset "demo-consumer-group" 1 "events" 0 5) =
      (exampleBroker, .errOffsetOutOfRange) ∧
    fetchCommitted
      (exampleBroker.step
        (.commitOffset "demo-consumer-group" 1 "events" 0 1)).1
      "demo-consumer-group" "events" 0 = some 1 ∧
    fetchCommitted exampleBroker "demo-consumer-group" "events" 0 = none := by
  refine ⟨?_, ?_, ?_, ?_⟩
  · exact (claim_C6_commitOffset exampleBroker "demo-consumer-group" 0
      "events" 0 1 ⟨.stable, 1, [("m1", 0)], none, []⟩
      ⟨[⟨some "user-1", "login", 0, none⟩]⟩).1 (by decide) (by decide)
  · exact (claim_C6_commitOffset exampleBroker "demo-consumer-group" 1
      "events" 0 5 ⟨.stable, 1, [("m1", 0)], none, []⟩
      ⟨[⟨some "user-1", "login", 0, none⟩]⟩).2.1 (by decide) (by decide)
      (by decide) (by decide)
  · exact (claim_C6_commitOffset exampleBroker "demo-consumer-group" 1
      "events" 0 1 ⟨.stable, 1, [("m1", 0)], none, []⟩
      ⟨[⟨some "user-1", "login", 0, none⟩]⟩).2.2.1 (by decide) (by decide)
      (by decide) (by decide) |>.2
  · exact (claim_C6_commitOffset exampleBroker "demo-consumer-group" 1
      "events" 0 1 ⟨.stable, 1, [("m1", 0)], none, []⟩
      ⟨[⟨some "user-1", "login", 0, none⟩]⟩).2.2.2 (by decide) (by decide)

/-! ## Claim theorems: consumer-group lifecycle (C8) -/

/-- C8.  A consumer group with zero members for longer than the session
timeout transitions to Dead on the session-timeout sweep, and a subsequent
`joinGroup` on a Dead group resurrects it into PreparingRebalance (the two
transitions of the Empty → PreparingRebalance → Stable → Dead state machine
exercised by the claim).  Also at the broker level: after the sweep the
group stored under its id is Dead, and after a join on it it is
PreparingRebalance. -/
theorem alookup_map_snd {α β : Type} [DecidableEq α] {k : α} {v : β}
    (f : β → β) {l : List (α × β)} (h : alookup k l = some v) :
    alookup k (l.map (fun q => (q.1, f q.2))) = some (f v) := by
  induction l with
  | nil => simp [alookup] at h
  | cons q rest ih =>
    obtain ⟨a, b⟩ := q
    by_cases ha : a = k
    · subst ha
      simp [alookup] at h
      simp [alookup, h]
    · simp [alookup, ha] at h
      simpa [alookup, ha] using ih h

theorem claim_C8_group_lifecycle (g : ConsumerGroup) (timeout now t0 : Nat)
    (m : String) (b : Broker) (gid : String) :
    (g.state ≠ .dead → g.members = [] → g.emptySince = some t0 →
       t0 + timeout < now → (ConsumerGroup.tick timeout now g).state = .dead)
  ∧ (g.state = .dead →
       (g.joinGroup m now).state = .preparingRebalance)
  ∧ (alookup gid b.groups = some g →
       alookup gid (b.step (.tick timeout now)).1.groups =
         some (ConsumerGroup.tick timeout now g))
  ∧ (alookup gid b.groups = some g → g.state = .dead →
       alookup gid (b.step (.joinGroup gid m now)).1.groups =
         some (g.joinGroup m now)) := by
  refine ⟨?_, ?_, ?_, ?_⟩
  · intro hlive hmem hsince hlate
    unfold ConsumerGroup.tick
    rw [if_neg hlive]
    simp [hmem, hsince, hlate]
  · intro hdead
    unfold ConsumerGroup.joinGroup
    rw [hdead]
  · intro hg
    simp only [Broker.step]
    exact alookup_map_snd _ hg
  · intro hg _
    simp only [Broker.step, hg]
    simp [alookup_amodify_self, hg]

/-- Witness for C8: a group whose only member was evicted at time 10
(emptySince = 10) is swept at time 41 with a session timeout of 30 and
becomes Dead; joining it afterwards makes it PreparingRebalance; the same
two facts hold through the broker-level operations. -/
theorem claim_C8_group_lifecycle_witness :
    (ConsumerGroup.tick 30 41 ⟨.preparingRebalance, 1, [], some 10, []⟩).state
      = .dead ∧
    (ConsumerGroup.joinGroup ⟨.dead, 1, [], some 10, []⟩ "m2" 50).state
      = .preparingRebalance ∧
    alookup "demo-consumer-group"
      ((Broker.step ⟨[], [], [], [],
          [("demo-consumer-group", ⟨.preparingRebalance, 1, [], some 10, []⟩)]⟩
        (.tick 30 41)).1.groups) =
      some (ConsumerGroup.tick 30 41 ⟨.preparingRebalance, 1, [], some 10, []⟩) ∧
    alookup "demo-consumer-group"
      ((Broker.step ⟨[], [], [], [],
          [("demo-consumer-group", ⟨.dead, 1, [], some 10, []⟩)]⟩
        (.joinGroup "demo-consumer-group" "m2" 50)).1.groups) =
      some (ConsumerGroup.joinGroup ⟨.dead, 1, [], some 10, []⟩ "m2" 50) := by
  refine ⟨?_, ?_, ?_, ?_⟩
  · exact (claim_C8_group_lifecycle ⟨.preparingRebalance, 1, [], some 10, []⟩
      30 41 10 "m2" initialBroker "demo-consumer-group").1
      (by decide) (by decide) (by decide) (by decide)
  · exact (claim_C8_group_lifecycle ⟨.dead, 1, [], some 10, []⟩
      30 50 10 "m2" initialBroker "demo-consumer-group").2.1 (by decide)
  · exact (claim_C8_group_lifecycle ⟨.preparingRebalance, 1, [], some 10, []⟩
      30 41 10 "m2"
      ⟨[], [], [], [],
        [("demo-consumer-group", ⟨.preparingRebalance, 1, [], some 10, []⟩)]⟩
      "demo-consumer-group").2.2.1 (by decide)
  · exact (claim_C8_group_lifecycle ⟨.dead, 1, [], some 10, []⟩
      30 50 10 "m2"
      ⟨[], [], [], [],
        [("demo-consumer-group", ⟨.dead, 1, [], some 10, []⟩)]⟩
      "demo-consumer-group").2.2.2 (by decide) (by decide)

/-! ## Claim theorems: idempotent produce (C4) -/

/-- C4.  In idempotent mode, sending the same (producer id, sequence number)
pair twice is deduplicated: whenever a first idempotent produce was assigned
an offset, repeating the produce returns the very same offset and leaves the
broker state — in particular the partition log — unchanged. -/
theorem claim_C4_idempotent_dedup (b b1 : Broker) (pid : String) (seq : Nat)
    (t : String) (i off : Nat) (rd rd' : RecordData)
    (h : b.step (.produceIdem pid seq t i rd) = (b1, .offsetAssigned off i)) :
    b1.step (.produceIdem pid seq t i rd') = (b1, .offsetAssigned off i) := by
  have hk : alookup (pid, t, i, seq) b1.dedup = some off := by
    revert h
    simp only [Broker.step]
    cases hd : alookup (pid, t, i, seq) b.dedup with
    | some off0 =>
      intro h
      obtain ⟨hb1, hoff⟩ := Prod.mk.injEq .. ▸ h
      cases hoff
      rw [← hb1]
      exact hd
    | none =>
      cases hp : getPartition b t i with
      | none => intro h; cases h
      | some p =>
        intro h
        simp only at h
        obtain ⟨hb1, hoff⟩ := Prod.mk.injEq .. ▸ h
        cases hoff
        rw [← hb1]
        exact alookup_aupdate_self _ _ _
  simp only [Broker.step, hk]

/-- Witness for C4: after the first idempotent produce of ("producer-1",
sequence 0) on `exampleBroker` is assigned offset 1, repeating it returns
offset 1 again and leaves the broker unchanged. -/
theorem claim_C4_idempotent_dedup_witness :
    (exampleBroker.step
        (.produceIdem "producer-1" 0 "events" 0 ⟨some "txn-1", "m1", 0⟩)).1.step
      (.produceIdem "producer-1" 0 "events" 0 ⟨some "txn-1", "m1", 0⟩) =
    ((exampleBroker.step
        (.produceIdem "producer-1" 0 "events" 0 ⟨some "txn-1", "m1", 0⟩)).1,
     .offsetAssigned 1 0) :=
  claim_C4_idempotent_dedup exampleBroker
    (exampleBroker.step
      (.produceIdem "producer-1" 0 "events" 0 ⟨some "txn-1", "m1", 0⟩)).1
    "producer-1" 0 "events" 0 1 ⟨some "txn-1", "m1", 0⟩ ⟨some "txn-1", "m1", 0⟩
    (by decide)

/-! ## Claim theorems: transactional visibility (C3) -/

/-- Well-formedness of the transaction tables: every transaction instance
recorded in `txns` belongs to a transactional id whose current epoch is at
least the instance's epoch.  Every broker operation preserves this (part of
C5); it rules out a later `beginTxn` reusing the key of a finished
instance. -/
def TxnWf (b : Broker) : Prop :=
  ∀ q ∈ b.txns, ∃ ec, alookup q.1.1 b.epochs = some ec ∧ q.1.2 ≤ ec

/-- A record of a still-open transaction is never in the readCommitted
visible set. -/
theorem fetchVisible_rc_not_open {txns : TxnTable} {p : Partition}
    {ir : Nat × Record} (h : ir ∈ fetchVisible txns p .readCommitted) :
    recordOpenTxn txns ir.2 = false := by
  obtain ⟨i, r⟩ := ir
  unfold fetchVisible at h
  have h3 := List.mem_filter.mp h
  have hlso : i < lastStableOffset txns p := by
    have := h3.2; simp at this; exact this.1
  obtain ⟨j, hj, hij, hget⟩ := mem_enumOfs h3.1
  have : i = j := by omega
  subst this
  exact get_of_lt_findIdx hget hlso

theorem fetchVisible_rc_not_aborted {txns : TxnTable} {p : Partition}
    {ir : Nat × Record} (h : ir ∈ fetchVisible txns p .readCommitted) :
    recordAbortedTxn txns ir.2 = false := by
  unfold fetchVisible at h
  have h3 := List.mem_filter.mp h
  have := h3.2; simp at this; exact this.2

/-- C3.  Writes produced in transactional mode are pending and invisible to
(readCommitted) consumers until commit; a commit atomically flips the
transaction's records to visible — in the post-commit state every one of its
records, in every partition it touched that holds no still-open
transactional record, is in the readCommitted visible set; on abort the
transaction's records are invisible to consumers, and permanently so: the
aborted status survives every subsequent broker operation. -/
theorem claim_C3_transactional_visibility (b : Broker) (tid : String) (e : Nat) :
    (∀ (p : Partition) (ir : Nat × Record),
       alookup (tid, e) b.txns = some .ongoing →
       ir ∈ fetchVisible b.txns p .readCommitted →
       ir.2.txn ≠ some (tid, e))
  ∧ (∀ (b1 : Broker), alookup tid b.epochs = some e →
       alookup (tid, e) b.txns = some .ongoing →
       b.step (.commitTxn tid) = (b1, .ok) →
       b1 = { b with txns := aupdate (tid, e) .committed b.txns } ∧
       (∀ (t : String) (i : Nat) (p : Partition),
         getPartition b1 t i = some p →
         (∀ r ∈ p.log, recordOpenTxn b1.txns r = false) →
         ∀ (j : Nat) (r : Record), p.log[j]? = some r →
           r.txn = some (tid, e) →
           (j, r) ∈ fetchVisible b1.txns p .readCommitted))
  ∧ (∀ (b1 : Broker), alookup tid b.epochs = some e →
       alookup (tid, e) b.txns = some .ongoing →
       b.step (.abortTxn tid) = (b1, .ok) →
       b1 = { b with txns := aupdate (tid, e) .aborted b.txns } ∧
       (∀ (p : Partition) (ir : Nat × Record),
         ir ∈ fetchVisible b1.txns p .readCommitted →
         ir.2.txn ≠ some (tid, e)))
  ∧ (∀ (op : BrokerOp), TxnWf b →
       alookup (tid, e) b.txns = some .aborted →
       alookup (tid, e) (b.step op).1.txns = some .aborted) := by
  refine ⟨?_, ?_, ?_, ?_⟩
  · intro p ir hongoing hmem htag
    have hopen : recordOpenTxn b.txns ir.2 = true := by
      simp [recordOpenTxn, txnStatusOf, htag, hongoing]
    rw [fetchVisible_rc_not_open hmem] at hopen
    cases hopen
  · intro b1 he hongoing hstep
    have hb1 : b1 = { b with txns := aupdate (tid, e) .committed b.txns } := by
      simp only [Broker.step, he, hongoing] at hstep
      exact congrArg Prod.fst hstep.symm
    refine ⟨hb1, ?_⟩
    intro t i p _ hnoopen j r hget htag
    have hlso : lastStableOffset b1.txns p = p.log.length := by
      unfold lastStableOffset
      exact List.findIdx_eq_length.mpr hnoopen
    have hjlen : j < p.log.length := by
      by_contra hc
      rw [List.getElem?_eq_none (by omega)] at hget
      cases hget
    have haborted : recordAbortedTxn b1.txns r = false := by
      simp [recordAbortedTxn, txnStatusOf, htag, hb1, alookup_aupdate_self]
    unfold fetchVisible
    refine List.mem_filter.mpr ⟨by simpa using enumOfs_mem_of_get 0 hget, ?_⟩
    simp [hlso, hjlen, haborted]
  · intro b1 he hongoing hstep
    have hb1 : b1 = { b with txns := aupdate (tid, e) .aborted b.txns } := by
      simp only [Broker.step, he, hongoing] at hstep
      exact congrArg Prod.fst hstep.symm
    refine ⟨hb1, ?_⟩
    intro p ir hmem htag
    have haborted : recordAbortedTxn b1.txns ir.2 = true := by
      simp [recordAbortedTxn, txnStatusOf, htag, hb1, alookup_aupdate_self]
    rw [fetchVisible_rc_not_aborted hmem] at haborted
    cases haborted
  · intro op hwf hab
    have hmem := mem_of_alookup_eq_some hab
    cases op with
    | createTopic name nparts =>
      simp only [Broker.step]
      cases hh : alookup name b.topics <;> simp [hh, hab]
    | deleteTopic name =>
      simp only [Broker.step]
      cases hh : alookup name b.topics <;> simp [hh, hab]
    | produce t i rd =>
      simp only [Broker.step, stepAppend]
      cases hh : getPartition b t i <;> simp [hh, setPartition, hab]
    | produceIdem pid seq t i rd =>
      simp only [Broker.step]
      cases hh : alookup (pid, t, i, seq) b.dedup with
      | some off => simp [hab]
      | none =>
        cases hp : getPartition b t i <;> simp [hp, setPartition, hab]
    | produceTxn tid' t i rd =>
      simp only [Broker.step]
      cases he : alookup tid' b.epochs with
      | none => simpa using hab
      | some ec =>
        cases ht : alookup (tid', ec) b.txns with
        | none => simp [ht, hab]
        | some st =>
          cases st with
          | ongoing =>
            simp only [stepAppend]
            cases hp : getPartition b t i <;> simp [ht, hp, setPartition, hab]
          | committed => simp [ht, hab]
          | aborted => simp [ht, hab]
    | beginTxn tid' =>
      simp only [Broker.step]
      cases he : alookup tid' b.epochs with
      | none =>
        by_cases hk : ((tid, e) : String × Nat) = (tid', 0)
        · exfalso
          obtain ⟨ec, hec, _⟩ := hwf _ hmem
          have : tid = tid' := congrArg Prod.fst hk
          rw [this] at hec
          rw [hec] at he
          cases he
        · simpa [alookup_aupdate_ne _ _ hk] using hab
      | some ec =>
        cases ht : alookup (tid', ec) b.txns with
        | none =>
          by_cases hk : ((tid, e) : String × Nat) = (tid', ec + 1)
          · exfalso
            obtain ⟨ec', hec', hle⟩ := hwf _ hmem
            have h1 : tid = tid' := congrArg Prod.fst hk
            have h2 : e = ec + 1 := congrArg Prod.snd hk
            rw [h1] at hec'
            rw [hec'] at he
            injection he with he2
            have hle2 : e ≤ ec' := hle
            omega
          · simp [ht, alookup_aupdate_ne _ _ hk, hab]
        | some st =>
          cases st with
          | ongoing => simp [ht, hab]
          | committed =>
            by_cases hk : ((tid, e) : String × Nat) = (tid', ec + 1)
            · exfalso
              obtain ⟨ec', hec', hle⟩ := hwf _ hmem
              have h1 : tid = tid' := congrArg Prod.fst hk
              have h2 : e = ec + 1 := congrArg Prod.snd hk
              rw [h1] at hec'
              rw [hec'] at he
              injection he with he2
              have hle2 : e ≤ ec' := hle
              omega
            · simp [ht, alookup_aupdate_ne _ _ hk, hab]
          | aborted =>
            by_cases hk : ((tid, e) : String × Nat) = (tid', ec + 1)
            · exfalso
              obtain ⟨ec', hec', hle⟩ := hwf _ hmem
              have h1 : tid = tid' := congrArg Prod.fst hk
              have h2 : e = ec + 1 := congrArg Prod.snd hk
              rw [h1] at hec'
              rw [hec'] at he
              injection he with he2
              have hle2 : e ≤ ec' := hle
              omega
            · simp [ht, alookup_aupdate_ne _ _ hk, hab]
    | commitTxn tid' =>
      simp only [Broker.step]
      cases he : alookup tid' b.epochs with
      | none => simpa using hab
      | some ec =>
        cases ht : alookup (tid', ec) b.txns with
        | none => simp [ht, hab]
        | some st =>
          cases st with
          | ongoing =>
            by_cases hk : ((tid, e) : String × Nat) = (tid', ec)
            · exfalso
              rw [← hk] at ht
              rw [hab] at ht
              cases ht
            · simp [ht, alookup_aupdate_ne _ _ hk, hab]
          | committed => simp [ht, hab]
          | aborted => simp [ht, hab]
    | abortTxn tid' =>
      simp only [Broker.step]
      cases he : alookup tid' b.epochs with
      | none => simpa using hab
      | some ec =>
        cases ht : alookup (tid', ec) b.txns with
        | none => simp [ht, hab]
        | some st =>
          cases st with
          | ongoing =>
            by_cases hk : ((tid, e) : String × Nat) = (tid', ec)
            · exfalso
              rw [← hk] at ht
              rw [hab] at ht
              cases ht
            · simp [ht, alookup_aupdate_ne _ _ hk, hab]
          | committed => simp [ht, hab]
          | aborted => simp [ht, hab]
    | commitOffset gid gen t i off =>
      simp only [Broker.step]
      cases hg : alookup gid b.groups with
      | none => simp [hab]
      | some g =>
        by_cases hgen : gen ≠ g.generation
        · simp [hgen, hab]
        · cases hp : getPartition b t i with
          | none => simp [hgen, hp, hab]
          | some p =>
            by_cases hoff : p.hwm < off
            · simp [hgen, hp, hoff, hab]
            · simp [hgen, hp, hoff, hab]
    | joinGroup gid m now =>
      simp only [Broker.step]
      cases hg : alookup gid b.groups <;> simp [hg, hab]
    | syncGroup gid =>
      simp only [Broker.step]
      cases hg : alookup gid b.groups <;> simp [hg, hab]
    | leaveGroup gid m now =>
      simp only [Broker.step]
      cases hg : alookup gid b.groups <;> simp [hg, hab]
    | heartbeat gid m now =>
      simp only [Broker.step]
      cases hg : alookup gid b.groups with
      | none => simp [hab]
      | some g =>
        by_cases hm : (alookup m g.members).isSome
        · simp [hm, hab]
        · simp [hm, hab]
    | tick timeout now =>
      simp only [Broker.step]
      exact hab

/-- Broker used by transactional witnesses: `exampleBroker` after
`beginTxn` of "my-transactional-producer" (epoch 0) and one transactional
produce into "events" partition 0. -/
def exampleTxnBroker : Broker :=
  ((exampleBroker.step (.beginTxn "my-transactional-producer")).1.step
    (.produceTxn "my-transactional-producer" "events" 0
      ⟨some "txn-1", "message 1", 1⟩)).1

/-- Witness for C3 on `exampleTxnBroker` (log: one plain record, one
pending transactional record): while the transaction is open the
readCommitted-visible record at offset 0 is not transactional; after commit
the transactional record at offset 1 is readCommitted-visible; after abort
the visible record is again not the transaction's; and the aborted status
survives a subsequent produce. -/
theorem claim_C3_transactional_visibility_witness :
    (((0 : Nat), (⟨some "user-1", "login", 0, none⟩ : Record)).2.txn ≠
       some ("my-transactional-producer", 0)) ∧
    (((1 : Nat),
       (⟨some "txn-1", "message 1", 1,
          some ("my-transactional-producer", 0)⟩ : Record)) ∈
      fetchVisible
        (exampleTxnBroker.step (.commitTxn "my-transactional-producer")).1.txns
        ⟨[⟨some "user-1", "login", 0, none⟩,
          ⟨some "txn-1", "message 1", 1,
            some ("my-transactional-producer", 0)⟩]⟩ .readCommitted) ∧
    alookup ("my-transactional-producer", 0)
      (((exampleTxnBroker.step (.abortTxn "my-transactional-producer")).1.step
          (.produce "events" 0 ⟨none, "later", 9⟩)).1.txns) =
      some .aborted := by
  refine ⟨?_, ?_, ?_⟩
  · exact (claim_C3_transactional_visibility exampleTxnBroker
      "my-transactional-producer" 0).1
      ⟨[⟨some "user-1", "login", 0, none⟩,
        ⟨some "txn-1", "message 1", 1,
          some ("my-transactional-producer", 0)⟩]⟩
      (0, ⟨some "user-1", "login", 0, none⟩) (by decide) (by decide)
  · exact ((claim_C3_transactional_visibility exampleTxnBroker
      "my-transactional-producer" 0).2.1
      (exampleTxnBroker.step (.commitTxn "my-transactional-producer")).1
      (by decide) (by decide) (by decide)).2 "events" 0
      ⟨[⟨some "user-1", "login", 0, none⟩,
        ⟨some "txn-1", "message 1", 1,
          some ("my-transactional-producer", 0)⟩]⟩
      (by decide) (by decide) 1
      ⟨some "txn-1", "message 1", 1, some ("my-transactional-producer", 0)⟩
      (by decide) (by decide)
  · exact (claim_C3_transactional_visibility
      (exampleTxnBroker.step (.abortTxn "my-transactional-producer")).1
      "my-transactional-producer" 0).2.2.2
      (.produce "events" 0 ⟨none, "later", 9⟩)
      (by
        intro q hq
        have htx :
            ((exampleTxnBroker.step
                (.abortTxn "my-transactional-producer")).1).txns =
            [(("my-transactional-producer", 0), TxnStatus.aborted)] := by
          decide
        rw [htx] at hq
        simp at hq
        rw [hq]
        exact ⟨0, by decide, by decide⟩)
      (by decide)

/-! ## Claim theorems: state invariants (C5) -/

/-- Committed-offset well-formedness: every committed offset recorded for a
group refers to an existing partition and does not exceed its high-water
mark. -/
def OffWf (b : Broker) : Prop :=
  ∀ gp ∈ b.groups, ∀ en ∈ gp.2.offsets,
    ∃ p, getPartition b en.1.1 en.1.2 = some p ∧ en.2 ≤ p.hwm

theorem getPartition_topics_eq {b b' : Broker} (h : b'.topics = b.topics)
    (t : String) (i : Nat) : getPartition b' t i = getPartition b t i := by
  unfold getPartition
  rw [h]

theorem TxnWf_eq {b b' : Broker} (ht : b'.txns = b.txns)
    (he : b'.epochs = b.epochs) (h : TxnWf b) : TxnWf b' := by
  unfold TxnWf
  rw [ht, he]
  exact h

theorem OffWf_eq {b b' : Broker} (hg : b'.groups = b.groups)
    (htop : b'.topics = b.topics) (h : OffWf b) : OffWf b' := by
  intro gp hgp en hen
  obtain ⟨p, hp, hle⟩ := h gp (hg ▸ hgp) en hen
  exact ⟨p, (getPartition_topics_eq htop _ _).trans hp, hle⟩

theorem mono_topics_eq {b b' : Broker} (h : b'.topics = b.topics) :
    ∀ (t : String) (i : Nat) (p p' : Partition),
      getPartition b t i = some p → getPartition b' t i = some p' →
      p.hwm ≤ p'.hwm := by
  intro t i p p' hp hp'
  rw [getPartition_topics_eq h, hp] at hp'
  injection hp' with hh
  rw [hh]

theorem OffWf_setPartition_append {b : Broker} {t0 : String} {i0 : Nat}
    {p0 : Partition} {r : Record} (hp0 : getPartition b t0 i0 = some p0)
    (h : OffWf b) : OffWf (setPartition b t0 i0 (p0.append r).1) := by
  intro gp hgp en hen
  obtain ⟨p, hp, hle⟩ := h gp hgp en hen
  by_cases hk : ((en.1.1 : String), en.1.2) = (t0, i0)
  · have h1 : en.1.1 = t0 := congrArg Prod.fst hk
    have h2 : en.1.2 = i0 := congrArg Prod.snd hk
    rw [h1, h2, hp0] at hp
    injection hp with hp
    refine ⟨(p0.append r).1, ?_, ?_⟩
    · rw [h1, h2]
      exact getPartition_setPartition_self hp0
    · rw [Partition.append_hwm]
      rw [← hp] at hle
      omega
  · refine ⟨p, ?_, hle⟩
    rw [getPartition_setPartition_other hk]
    exact hp

theorem mono_setPartition_append {b : Broker} {t0 : String} {i0 : Nat}
    {p0 : Partition} {r : Record} (hp0 : getPartition b t0 i0 = some p0) :
    ∀ (t : String) (i : Nat) (p p' : Partition),
      getPartition b t i = some p →
      getPartition (setPartition b t0 i0 (p0.append r).1) t i = some p' →
      p.hwm ≤ p'.hwm := by
  intro t i p p' hp hp'
  by_cases hk : ((t : String), i) = (t0, i0)
  · have h1 : t = t0 := congrArg Prod.fst hk
    have h2 : i = i0 := congrArg Prod.snd hk
    subst h1; subst h2
    rw [getPartition_setPartition_self hp0] at hp'
    injection hp' with hp'
    rw [hp0] at hp
    injection hp with hp
    rw [← hp', ← hp, Partition.append_hwm]
    omega
  · rw [getPartition_setPartition_other hk, hp] at hp'
    injection hp' with hp'
    rw [hp']

theorem OffWf_amodify_preserve {b : Broker} {gid : String}
    {f : ConsumerGroup → ConsumerGroup} (hf : ∀ g, (f g).offsets = g.offsets)
    (h : OffWf b) : OffWf { b with groups := amodify gid f b.groups } := by
  intro gp hgp en hen
  rcases mem_amodify hgp with hold | ⟨g0, hg0, hq⟩
  · exact h gp hold en hen
  · rw [hq] at hen
    simp only [hf] at hen
    exact h (gid, g0) hg0 en hen

theorem OffWf_map_preserve {b : Broker} {f : ConsumerGroup → ConsumerGroup}
    (hf : ∀ g, (f g).offsets = g.offsets) (h : OffWf b) :
    OffWf { b with groups := b.groups.map (fun gp => (gp.1, f gp.2)) } := by
  intro gp hgp en hen
  obtain ⟨gp0, hgp0, hq⟩ := List.mem_map.mp hgp
  rw [← hq] at hen
  simp only [hf] at hen
  have : (gp0.1, f gp0.2).2.offsets = gp0.2.offsets := hf _
  exact h gp0 hgp0 en (by simpa [hf] using hen)

theorem joinGroup_offsets (g : ConsumerGroup) (m : String) (now : Nat) :
    (g.joinGroup m now).offsets = g.offsets := by
  unfold ConsumerGroup.joinGroup
  cases g.state <;> rfl

theorem syncGroup_offsets (g : ConsumerGroup) :
    (g.syncGroup).offsets = g.offsets := by
  unfold ConsumerGroup.syncGroup
  by_cases h : g.state = .preparingRebalance <;> simp [h]

theorem leaveGroup_offsets (g : ConsumerGroup) (m : String) (now : Nat) :
    (g.leaveGroup m now).offsets = g.offsets := by
  unfold ConsumerGroup.leaveGroup
  split <;> rfl

theorem heartbeatMember_offsets (g : ConsumerGroup) (m : String) (now : Nat) :
    (g.heartbeatMember m now).offsets = g.offsets := rfl

theorem tick_offsets (timeout now : Nat) (g : ConsumerGroup) :
    (ConsumerGroup.tick timeout now g).offsets = g.offsets := by
  unfold ConsumerGroup.tick
  repeat' split
  all_goals rfl

theorem TxnWf_setStatus {b : Broker} {tid : String} {e : Nat} {st : TxnStatus}
    (he : alookup tid b.epochs = some e) (htxn : TxnWf b) :
    TxnWf { b with txns := aupdate (tid, e) st b.txns } := by
  intro q hq
  rcases mem_aupdate hq with hold | hnew
  · exact htxn q hold
  · rw [hnew]
    exact ⟨e, he, Nat.le_refl e⟩

theorem TxnWf_begin_fresh {b : Broker} {tid : String}
    (he : alookup tid b.epochs = none) (htxn : TxnWf b) :
    TxnWf { b with epochs := aupdate tid 0 b.epochs,
                   txns := aupdate (tid, 0) .ongoing b.txns } := by
  intro q hq
  rcases mem_aupdate hq with hold | hnew
  · obtain ⟨ec, hec, hle⟩ := htxn q hold
    by_cases hk : q.1.1 = tid
    · rw [hk] at hec
      rw [he] at hec
      cases hec
    · exact ⟨ec, by rw [alookup_aupdate_ne _ _ hk]; exact hec, hle⟩
  · rw [hnew]
    exact ⟨0, alookup_aupdate_self _ _ _, Nat.le_refl 0⟩

theorem TxnWf_begin_bump {b : Broker} {tid : String} {e : Nat}
    (he : alookup tid b.epochs = some e) (htxn : TxnWf b) :
    TxnWf { b with epochs := aupdate tid (e + 1) b.epochs,
                   txns := aupdate (tid, e + 1) .ongoing b.txns } := by
  intro q hq
  rcases mem_aupdate hq with hold | hnew
  · obtain ⟨ec, hec, hle⟩ := htxn q hold
    by_cases hk : q.1.1 = tid
    · rw [hk] at hec
      rw [he] at hec
      injection hec with hec2
      refine ⟨e + 1, ?_, ?_⟩
      · rw [hk]
        exact alookup_aupdate_self _ _ _
      · have hle2 : q.1.2 ≤ ec := hle
        omega
    · exact ⟨ec, by rw [alookup_aupdate_ne _ _ hk]; exact hec, hle⟩
  · rw [hnew]
    exact ⟨e + 1, alookup_aupdate_self _ _ _, Nat.le_refl (e + 1)⟩

/-- C5.  Every broker operation preserves the two state invariants — the
committed offset recorded for any group on a partition never exceeds that
partition's high-water mark (together with transaction-table
well-formedness), and, for every partition present before and after the
operation, the high-water mark never decreases. -/
theorem claim_C5_invariants (b : Broker) (op : BrokerOp)
    (hwf : TxnWf b ∧ OffWf b) :
    (TxnWf (b.step op).1 ∧ OffWf (b.step op).1) ∧
    (∀ (t : String) (i : Nat) (p p' : Partition),
      getPartition b t i = some p →
      getPartition (b.step op).1 t i = some p' → p.hwm ≤ p'.hwm) := by
  obtain ⟨htxn, hoff⟩ := hwf
  cases op with
  | createTopic name nparts =>
    simp only [Broker.step]
    cases hh : alookup name b.topics with
    | some ps => exact ⟨⟨htxn, hoff⟩, mono_topics_eq rfl⟩
    | none =>
      refine ⟨⟨TxnWf_eq rfl rfl htxn, ?_⟩, ?_⟩
      · intro gp hgp en hen
        obtain ⟨p, hp, hle⟩ := hoff gp hgp en hen
        refine ⟨p, ?_, hle⟩
        unfold getPartition at hp ⊢
        simp only [alookup]
        by_cases ht : name = en.1.1
        · rw [← ht, hh] at hp
          cases hp
        · simp only [if_neg ht]
          exact hp
      · intro t i p p' hp hp'
        unfold getPartition at hp hp'
        simp only [alookup] at hp'
        by_cases ht : name = t
        · rw [← ht, hh] at hp
          cases hp
        · simp only [if_neg ht] at hp'
          rw [hp] at hp'
          injection hp' with hh2
          rw [hh2]
  | deleteTopic name =>
    simp only [Broker.step]
    cases hh : alookup name b.topics with
    | none => exact ⟨⟨htxn, hoff⟩, mono_topics_eq rfl⟩
    | some ps =>
      refine ⟨⟨TxnWf_eq rfl rfl htxn, ?_⟩, ?_⟩
      · intro gp hgp en hen
        obtain ⟨gp0, hgp0, hq⟩ := List.mem_map.mp hgp
        rw [← hq] at hen
        simp only at hen
        have hen2 := List.mem_filter.mp hen
        obtain ⟨p, hp, hle⟩ := hoff gp0 hgp0 en hen2.1
        have hne : en.1.1 ≠ name := by simpa using hen2.2
        refine ⟨p, ?_, hle⟩
        unfold getPartition at hp ⊢
        rw [alookup_aerase_ne _ hne]
        exact hp
      · intro t i p p' hp hp'
        unfold getPartition at hp hp'
        by_cases ht : t = name
        · subst ht
          rw [alookup_aerase_self] at hp'
          cases hp'
        · rw [alookup_aerase_ne _ ht] at hp'
          rw [hp] at hp'
          injection hp' with hh2
          rw [hh2]
  | produce t0 i0 rd =>
    simp only [Broker.step, stepAppend]
    cases hp0 : getPartition b t0 i0 with
    | none => exact ⟨⟨htxn, hoff⟩, mono_topics_eq rfl⟩
    | some p0 =>
      exact ⟨⟨TxnWf_eq rfl rfl htxn, OffWf_setPartition_append hp0 hoff⟩,
             mono_setPartition_append hp0⟩
  | produceIdem pid seq t0 i0 rd =>
    simp only [Broker.step]
    cases hd : alookup (pid, t0, i0, seq) b.dedup with
    | some off => exact ⟨⟨htxn, hoff⟩, mono_topics_eq rfl⟩
    | none =>
      cases hp0 : getPartition b t0 i0 with
      | none => exact ⟨⟨htxn, hoff⟩, mono_topics_eq rfl⟩
      | some p0 =>
        refine ⟨⟨TxnWf_eq rfl rfl htxn,
                 OffWf_eq rfl rfl (OffWf_setPartition_append hp0 hoff)⟩, ?_⟩
        intro t i p p' hp hp'
        exact mono_setPartition_append hp0 t i p p' hp hp'
  | produceTxn tid t0 i0 rd =>
    simp only [Broker.step]
    cases he : alookup tid b.epochs with
    | none => exact ⟨⟨htxn, hoff⟩, mono_topics_eq rfl⟩
    | some e =>
      cases ht : alookup (tid, e) b.txns with
      | none =>
        simp only [ht]
        exact ⟨⟨htxn, hoff⟩, mono_topics_eq rfl⟩
      | some st =>
        cases st with
        | ongoing =>
          simp only [ht, stepAppend]
          cases hp0 : getPartition b t0 i0 with
          | none => exact ⟨⟨htxn, hoff⟩, mono_topics_eq rfl⟩
          | some p0 =>
            exact ⟨⟨TxnWf_eq rfl rfl htxn, OffWf_setPartition_append hp0 hoff⟩,
                   mono_setPartition_append hp0⟩
        | committed =>
          simp only [ht]
          exact ⟨⟨htxn, hoff⟩, mono_topics_eq rfl⟩
        | aborted =>
          simp only [ht]
          exact ⟨⟨htxn, hoff⟩, mono_topics_eq rfl⟩
  | beginTxn tid =>
    simp only [Broker.step]
    cases he : alookup tid b.epochs with
    | none =>
      exact ⟨⟨TxnWf_begin_fresh he htxn, OffWf_eq rfl rfl hoff⟩,
             mono_topics_eq rfl⟩
    | some e =>
      cases ht : alookup (tid, e) b.txns with
      | none =>
        simp only [ht]
        exact ⟨⟨TxnWf_begin_bump he htxn, OffWf_eq rfl rfl hoff⟩,
               mono_topics_eq rfl⟩
      | some st =>
        cases st with
        | ongoing =>
          simp only [ht]
          exact ⟨⟨htxn, hoff⟩, mono_topics_eq rfl⟩
        | committed =>
          simp only [ht]
          exact ⟨⟨TxnWf_begin_bump he htxn, OffWf_eq rfl rfl hoff⟩,
                 mono_topics_eq rfl⟩
        | aborted =>
          simp only [ht]
          exact ⟨⟨TxnWf_begin_bump he htxn, OffWf_eq rfl rfl hoff⟩,
                 mono_topics_eq rfl⟩
  | commitTxn tid =>
    simp only [Broker.step]
    cases he : alookup tid b.epochs with
    | none => exact ⟨⟨htxn, hoff⟩, mono_topics_eq rfl⟩
    | some e =>
      cases ht : alookup (tid, e) b.txns with
      | none =>
        simp only [ht]
        exact ⟨⟨htxn, hoff⟩, mono_topics_eq rfl⟩
      | some st =>
        cases st with
        | ongoing =>
          simp only [ht]
          exact ⟨⟨TxnWf_setStatus he htxn, OffWf_eq rfl rfl hoff⟩,
                 mono_topics_eq rfl⟩
        | committed =>
          simp only [ht]
          exact ⟨⟨htxn, hoff⟩, mono_topics_eq rfl⟩
        | aborted =>
          simp only [ht]
          exact ⟨⟨htxn, hoff⟩, mono_topics_eq rfl⟩
  | abortTxn tid =>
    simp only [Broker.step]
    cases he : alookup tid b.epochs with
    | none => exact ⟨⟨htxn, hoff⟩, mono_topics_eq rfl⟩
    | some e =>
      cases ht : alookup (tid, e) b.txns with
      | none =>
        simp only [ht]
        exact ⟨⟨htxn, hoff⟩, mono_topics_eq rfl⟩
      | some st =>
        cases st with
        | ongoing =>
          simp only [ht]
          exact ⟨⟨TxnWf_setStatus he htxn, OffWf_eq rfl rfl hoff⟩,
                 mono_topics_eq rfl⟩
        | committed =>
          simp only [ht]
          exact ⟨⟨htxn, hoff⟩, mono_topics_eq rfl⟩
        | aborted =>
          simp only [ht]
          exact ⟨⟨htxn, hoff⟩, mono_topics_eq rfl⟩
  | commitOffset gid gen t0 i0 off =>
    simp only [Broker.step]
    cases hg : alookup gid b.groups with
    | none => exact ⟨⟨htxn, hoff⟩, mono_topics_eq rfl⟩
    | some g =>
      by_cases hgen : gen ≠ g.generation
      · simp only [if_pos hgen]
        exact ⟨⟨htxn, hoff⟩, mono_topics_eq rfl⟩
      · simp only [if_neg hgen]
        cases hp0 : getPartition b t0 i0 with
        | none =>
          simp only [hp0]
          exact ⟨⟨htxn, hoff⟩, mono_topics_eq rfl⟩
        | some p0 =>
          simp only [hp0]
          by_cases hov : p0.hwm < off
          · simp only [if_pos hov]
            exact ⟨⟨htxn, hoff⟩, mono_topics_eq rfl⟩
          · simp only [if_neg hov]
            refine ⟨⟨TxnWf_eq rfl rfl htxn, ?_⟩, mono_topics_eq rfl⟩
            intro gp hgp en hen
            have hgp' : gp ∈ amodify gid
                (fun g => { g with offsets := aupdate (t0, i0) off g.offsets })
                b.groups := hgp
            rcases mem_amodify hgp' with hold | ⟨g0, hg0, hq⟩
            · exact hoff gp hold en hen
            · rw [hq] at hen
              simp only at hen
              rcases mem_aupdate hen with ho | hnewe
              · exact hoff (gid, g0) hg0 en ho
              · rw [hnewe]
                exact ⟨p0, hp0, by omega⟩
  | joinGroup gid m now =>
    simp only [Broker.step]
    cases hg : alookup gid b.groups with
    | none =>
      refine ⟨⟨TxnWf_eq rfl rfl htxn, ?_⟩, mono_topics_eq rfl⟩
      intro gp hgp en hen
      rcases List.mem_cons.mp hgp with hhead | htail
      · rw [hhead] at hen
        simp [joinGroup_offsets, freshGroup] at hen
      · exact hoff gp htail en hen
    | some g =>
      exact ⟨⟨TxnWf_eq rfl rfl htxn,
              OffWf_amodify_preserve (fun g => joinGroup_offsets g m now) hoff⟩,
             mono_topics_eq rfl⟩
  | syncGroup gid =>
    simp only [Broker.step]
    cases hg : alookup gid b.groups with
    | none => exact ⟨⟨htxn, hoff⟩, mono_topics_eq rfl⟩
    | some g =>
      exact ⟨⟨TxnWf_eq rfl rfl htxn,
              OffWf_amodify_preserve (fun g => syncGroup_offsets g) hoff⟩,
             mono_topics_eq rfl⟩
  | leaveGroup gid m now =>
    simp only [Broker.step]
    cases hg : alookup gid b.groups with
    | none => exact ⟨⟨htxn, hoff⟩, mono_topics_eq rfl⟩
    | some g =>
      exact ⟨⟨TxnWf_eq rfl rfl htxn,
              OffWf_amodify_preserve (fun g => leaveGroup_offsets g m now) hoff⟩,
             mono_topics_eq rfl⟩
  | heartbeat gid m now =>
    simp only [Broker.step]
    cases hg : alookup gid b.groups with
    | none => exact ⟨⟨htxn, hoff⟩, mono_topics_eq rfl⟩
    | some g =>
      by_cases hm : (alookup m g.members).isSome
      · simp only [if_pos hm]
        exact ⟨⟨TxnWf_eq rfl rfl htxn,
                OffWf_amodify_preserve
                  (fun g => heartbeatMember_offsets g m now) hoff⟩,
               mono_topics_eq rfl⟩
      · simp only [if_neg hm]
        exact ⟨⟨htxn, hoff⟩, mono_topics_eq rfl⟩
  | tick timeout now =>
    simp only [Broker.step]
    exact ⟨⟨TxnWf_eq rfl rfl htxn,
            OffWf_map_preserve (fun g => tick_offsets timeout now g) hoff⟩,
           mono_topics_eq rfl⟩

/-- Witness for C5: starting from the well-formed broker with topic "events"
(one partition, empty log), the produce operation preserves both invariants
and does not decrease the high-water mark of "events"/0 (0 ≤ 1). -/
theorem claim_C5_invariants_witness :
    (TxnWf ((initialBroker.step (.createTopic "events" 1)).1.step
        (.produce "events" 0 ⟨some "user-1", "login", 0⟩)).1 ∧
     OffWf ((initialBroker.step (.createTopic "events" 1)).1.step
        (.produce "events" 0 ⟨some "user-1", "login", 0⟩)).1) ∧
    Partition.hwm emptyPartition ≤
      Partition.hwm ⟨[⟨some "user-1", "login", 0, none⟩]⟩ := by
  have hwf : TxnWf (initialBroker.step (.createTopic "events" 1)).1 ∧
      OffWf (initialBroker.step (.createTopic "events" 1)).1 := by
    constructor
    · intro q hq
      have h0 : ((initialBroker.step (.createTopic "events" 1)).1).txns = [] := by
        decide
      rw [h0] at hq
      cases hq
    · intro gp hgp
      have h0 : ((initialBroker.step (.createTopic "events" 1)).1).groups = [] := by
        decide
      rw [h0] at hgp
      cases hgp
  have h := claim_C5_invariants (initialBroker.step (.createTopic "events" 1)).1
    (.produce "events" 0 ⟨some "user-1", "login", 0⟩) hwf
  exact ⟨h.1, h.2 "events" 0 emptyPartition ⟨[⟨some "user-1", "login", 0, none⟩]⟩
    (by decide) (by decide)⟩

/-! ## The REST client (`console_client_example.py`)

These definitions embed the Python `TakhinClient`.  The network is abstracted
as a function from (method, path, query parameters, optional JSON body) to
the HTTP response the server sends back; `requests` parses the response body
as JSON, which the embedding models by storing the already-parsed JSON value
in the response. -/

inductive Json
  | null
  | str (s : String)
  | num (n : Int)
  | jbool (b : Bool)
  | arr (xs : List Json)
  | obj (fields : List (String × Json))

structure HttpResponse where
  status : Nat
  body : Json

abbrev Net := String → String → List (String × String) → Option Json → HttpResponse

/-- `requests.Response.raise_for_status()`: raises `HTTPError` exactly when
the status code is 4xx or 5xx, otherwise returns the response. -/
def raise_for_status (r : HttpResponse) : Except Nat HttpResponse :=
  if 400 ≤ r.status ∧ r.status < 600 then .error r.status else .ok r

/-- `TakhinClient._request` (console_client_example.py, lines 32–37): sends
the request and calls `raise_for_status` on the response before returning
it. -/
def _request (send : Net) (method path : String)
    (params : List (String × String)) (body : Option Json) :
    Except Nat HttpResponse :=
  raise_for_status (send method path params body)

def TakhinClient.health (send : Net) : Except Nat Json :=
  (_request send "GET" "/health" [] none).map HttpResponse.body

def TakhinClient.health_ready (send : Net) : Except Nat Json :=
  (_request send "GET" "/health/ready" [] none).map HttpResponse.body

def TakhinClient.list_topics (send : Net) : Except Nat Json :=
  (_request send "GET" "/topics" [] none).map HttpResponse.body

def TakhinClient.get_topic (send : Net) (name : String) : Except Nat Json :=
  (_request send "GET" ("/topics/" ++ name) [] none).map HttpResponse.body

def TakhinClient.create_topic (send : Net) (name : String) (partitions : Nat) :
    Except Nat Json :=
  (_request send "POST" "/topics" []
    (some (.obj [("name", .str name), ("partitions", .num partitions)]))).map
    HttpResponse.body

def TakhinClient.delete_topic (send : Net) (name : String) : Except Nat Unit :=
  (_request send "DELETE" ("/topics/" ++ name) [] none).map (fun _ => ())

def TakhinClient.get_messages (send : Net) (topic : String)
    (partition offset limit : Nat) : Except Nat Json :=
  (_request send "GET" ("/topics/" ++ topic ++ "/messages")
    [("partition", toString partition), ("offset", toString offset),
     ("limit", toString limit)] none).map HttpResponse.body

def TakhinClient.produce_message (send : Net) (topic : String)
    (partition : Nat) (key value : String) : Except Nat Json :=
  (_request send "POST" ("/topics/" ++ topic ++ "/messages") []
    (some (.obj [("partition", .num partition), ("key", .str key),
                 ("value", .str value)]))).map HttpResponse.body

def TakhinClient.list_consumer_groups (send : Net) : Except Nat Json :=
  (_request send "GET" "/consumer-groups" [] none).map HttpResponse.body

def TakhinClient.get_consumer_group (send : Net) (gid : String) :
    Except Nat Json :=
  (_request send "GET" ("/consumer-groups/" ++ gid) [] none).map
    HttpResponse.body

/-- The 4xx/5xx statuses on which `raise_for_status` raises. -/
def errStatus (r : HttpResponse) : Prop := 400 ≤ r.status ∧ r.status < 600

theorem map_request_error {α : Type} (send : Net) (method path : String)
    (params : List (String × String)) (body : Option Json)
    (f : HttpResponse → α) (h : errStatus (send method path params body)) :
    (_request send method path params body).map f =
      .error (send method path params body).status := by
  unfold errStatus at h
  unfold _request raise_for_status
  rw [if_pos h]
  rfl

theorem map_request_ok {α : Type} (send : Net) (method path : String)
    (params : List (String × String)) (body : Option Json)
    (f : HttpResponse → α) (h : ¬ errStatus (send method path params body)) :
    (_request send method path params body).map f =
      .ok (f (send method path params body)) := by
  unfold errStatus at h
  unfold _request raise_for_status
  rw [if_neg h]
  rfl

/-- C9.  For every TakhinClient method and every server response: a 4xx/5xx
status makes the method raise (via `raise_for_status`) and return no value,
while a non-error status makes it return the parsed JSON body (unit for
`delete_topic`); no method ever returns an error payload as a normal
result. -/
theorem claim_C9_request_error_handling (send : Net) (name gid topic : String)
    (partition offset limit : Nat) (key value : String) :
    ((errStatus (send "GET" "/health" [] none) →
        TakhinClient.health send =
          .error (send "GET" "/health" [] none).status) ∧
     (¬ errStatus (send "GET" "/health" [] none) →
        TakhinClient.health send = .ok (send "GET" "/health" [] none).body))
  ∧ ((errStatus (send "GET" "/health/ready" [] none) →
        TakhinClient.health_ready send =
          .error (send "GET" "/health/ready" [] none).status) ∧
     (¬ errStatus (send "GET" "/health/ready" [] none) →
        TakhinClient.health_ready send =
          .ok (send "GET" "/health/ready" [] none).body))
  ∧ ((errStatus (send "GET" "/topics" [] none) →
        TakhinClient.list_topics send =
          .error (send "GET" "/topics" [] none).status) ∧
     (¬ errStatus (send "GET" "/topics" [] none) →
        TakhinClient.list_topics send =
          .ok (send "GET" "/topics" [] none).body))
  ∧ ((errStatus (send "GET" ("/topics/" ++ name) [] none) →
        TakhinClient.get_topic send name =
          .error (send "GET" ("/topics/" ++ name) [] none).status) ∧
     (¬ errStatus (send "GET" ("/topics/" ++ name) [] none) →
        TakhinClient.get_topic send name =
          .ok (send "GET" ("/topics/" ++ name) [] none).body))
  ∧ ((errStatus (send "POST" "/topics" []
        (some (.obj [("name", .str name), ("partitions", .num partition)]))) →
        TakhinClient.create_topic send name partition =
          .error (send "POST" "/topics" []
            (some (.obj [("name", .str name),
                         ("partitions", .num partition)]))).status) ∧
     (¬ errStatus (send "POST" "/topics" []
        (some (.obj [("name", .str name), ("partitions", .num partition)]))) →
        TakhinClient.create_topic send name partition =
          .ok (send "POST" "/topics" []
            (some (.obj [("name", .str name),
                         ("partitions", .num partition)]))).body))
  ∧ ((errStatus (send "DELETE" ("/topics/" ++ name) [] none) →
        TakhinClient.delete_topic send name =
          .error (send "DELETE" ("/topics/" ++ name) [] none).status) ∧
     (¬ errStatus (send "DELETE" ("/topics/" ++ name) [] none) →
        TakhinClient.delete_topic send name = .ok ()))
  ∧ ((errStatus (send "GET" ("/topics/" ++ topic ++ "/messages")
        [("partition", toString partition), ("offset", toString offset),
         ("limit", toString limit)] none) →
        TakhinClient.get_messages send topic partition offset limit =
          .error (send "GET" ("/topics/" ++ topic ++ "/messages")
            [("partition", toString partition), ("offset", toString offset),
             ("limit", toString limit)] none).status) ∧
     (¬ errStatus (send "GET" ("/topics/" ++ topic ++ "/messages")
        [("partition", toString partition), ("offset", toString offset),
         ("limit", toString limit)] none) →
        TakhinClient.get_messages send topic partition offset limit =
          .ok (send "GET" ("/topics/" ++ topic ++ "/messages")
            [("partition", toString partition), ("offset", toString offset),
             ("limit", toString limit)] none).body))
  ∧ ((errStatus (send "POST" ("/topics/" ++ topic ++ "/messages") []
        (some (.obj [("partition", .num partition), ("key", .str key),
                     ("value", .str value)]))) →
        TakhinClient.produce_message send topic partition key value =
          .error (send "POST" ("/topics/" ++ topic ++ "/messages") []
            (some (.obj [("partition", .num partition), ("key", .str key),
                         ("value", .str value)]))).status) ∧
     (¬ errStatus (send "POST" ("/topics/" ++ topic ++ "/messages") []
        (some (.obj [("partition", .num partition), ("key", .str key),
                     ("value", .str value)]))) →
        TakhinClient.produce_message send topic partition key value =
          .ok (send "POST" ("/topics/" ++ topic ++ "/messages") []
            (some (.obj [("partition", .num partition), ("key", .str key),
                         ("value", .str value)]))).body))
  ∧ ((errStatus (send "GET" "/consumer-groups" [] none) →
        TakhinClient.list_consumer_groups send =
          .error (send "GET" "/consumer-groups" [] none).status) ∧
     (¬ errStatus (send "GET" "/consumer-groups" [] none) →
        TakhinClient.list_consumer_groups send =
          .ok (send "GET" "/consumer-groups" [] none).body))
  ∧ ((errStatus (send "GET" ("/consumer-groups/" ++ gid) [] none) →
        TakhinClient.get_consumer_group send gid =
          .error (send "GET" ("/consumer-groups/" ++ gid) [] none).status) ∧
     (¬ errStatus (send "GET" ("/consumer-groups/" ++ gid) [] none) →
        TakhinClient.get_consumer_group send gid =
          .ok (send "GET" ("/consumer-groups/" ++ gid) [] none).body)) := by
  refine ⟨⟨?_, ?_⟩, ⟨?_, ?_⟩, ⟨?_, ?_⟩, ⟨?_, ?_⟩, ⟨?_, ?_⟩, ⟨?_, ?_⟩,
         ⟨?_, ?_⟩, ⟨?_, ?_⟩, ⟨?_, ?_⟩, ⟨?_, ?_⟩⟩ <;> intro h
  · exact map_request_error send _ _ _ _ _ h
  · exact map_request_ok send _ _ _ _ _ h
  · exact map_request_error send _ _ _ _ _ h
  · exact map_request_ok send _ _ _ _ _ h
  · exact map_request_error send _ _ _ _ _ h
  · exact map_request_ok send _ _ _ _ _ h
  · exact map_request_error send _ _ _ _ _ h
  · exact map_request_ok send _ _ _ _ _ h
  · exact map_request_error send _ _ _ _ _ h
  · exact map_request_ok send _ _ _ _ _ h
  · exact map_request_error send _ _ _ _ _ h
  · exact map_request_ok send _ _ _ _ _ h
  · exact map_request_error send _ _ _ _ _ h
  · exact map_request_ok send _ _ _ _ _ h
  · exact map_request_error send _ _ _ _ _ h
  · exact map_request_ok send _ _ _ _ _ h
  · exact map_request_error send _ _ _ _ _ h
  · exact map_request_ok send _ _ _ _ _ h
  · exact map_request_error send _ _ _ _ _ h
  · exact map_request_ok send _ _ _ _ _ h

/-- Witness for C9: against a server that always answers 404 every call of
`TakhinClient.health` raises with status 404, and against a server that
always answers 200 with body `null` it returns that body. -/
theorem claim_C9_request_error_handling_witness :
    TakhinClient.health (fun _ _ _ _ => ⟨404, .null⟩) = .error 404 ∧
    TakhinClient.health (fun _ _ _ _ => ⟨200, .null⟩) = .ok .null :=
  ⟨(claim_C9_request_error_handling (fun _ _ _ _ => ⟨404, .null⟩)
      "events" "g" "events" 0 0 0 "k" "v").1.1 ⟨by decide, by decide⟩,
   (claim_C9_request_error_handling (fun _ _ _ _ => ⟨200, .null⟩)
      "events" "g" "events" 0 0 0 "k" "v").1.2
     (by intro hc; exact absurd hc.1 (by decide))⟩

/-! ## `transactional_produce` (`kafka_client_example.py`, lines 176–208)

The function body after `init_transactions` is

    try:
        producer.begin_transaction()
        for msg in messages:      # two messages, keys "txn-1" and "txn-2"
            producer.send(...)
        producer.commit_transaction()
    except Exception:
        producer.abort_transaction()
    finally:
        producer.close()

The embedding records the producer calls actually made, parameterized by
which of the four calls in the try block raises (a later call only runs if
no earlier one raised, per Python semantics); the except arm runs
`abort_transaction` exactly when the body raised, and the finally arm always
runs `close`. -/

inductive PEv
  | beginT
  | sendRec (key : String)
  | commitT
  | abortT
  | closeP
deriving DecidableEq

def tpTryBody (beginFails send1Fails send2Fails commitFails : Bool) :
    List PEv × Bool :=
  if beginFails then ([.beginT], true)
  else if send1Fails then ([.beginT, .sendRec "txn-1"], true)
  else if send2Fails then ([.beginT, .sendRec "txn-1", .sendRec "txn-2"], true)
  else if commitFails then
    ([.beginT, .sendRec "txn-1", .sendRec "txn-2", .commitT], true)
  else ([.beginT, .sendRec "txn-1", .sendRec "txn-2", .commitT], false)

def transactional_produce (bF s1F s2F cF : Bool) : List PEv :=
  (tpTryBody bF s1F s2F cF).1 ++
    (if (tpTryBody bF s1F s2F cF).2 then [.abortT] else []) ++ [.closeP]

/-- C10.  In `transactional_produce`, every transaction that is begun is
terminated before the producer is closed: with no exception between
`begin_transaction` and `commit_transaction` the transaction is committed
(and never aborted), with any exception in that region `abort_transaction`
is called; in all cases `producer.close()` runs (and runs last), so the
function never exits leaving a transaction open. -/
theorem claim_C10_txn_always_terminated (bF s1F s2F cF : Bool) :
    (transactional_produce bF s1F s2F cF).getLast? = some .closeP ∧
    PEv.closeP ∈ transactional_produce bF s1F s2F cF ∧
    ((bF = false ∧ s1F = false ∧ s2F = false ∧ cF = false) →
       PEv.commitT ∈ transactional_produce bF s1F s2F cF ∧
       PEv.abortT ∉ transactional_produce bF s1F s2F cF) ∧
    ((bF = true ∨ s1F = true ∨ s2F = true ∨ cF = true) →
       PEv.abortT ∈ transactional_produce bF s1F s2F cF) ∧
    (bF = false →
       PEv.commitT ∈ transactional_produce bF s1F s2F cF ∨
       PEv.abortT ∈ transactional_produce bF s1F s2F cF) := by
  revert bF s1F s2F cF
  decide

/-- Witness for C10: in the no-exception run the transaction commits and is
never aborted; in a run where the second send raises, abort is called; in
both, close is the last call. -/
theorem claim_C10_txn_always_terminated_witness :
    (PEv.commitT ∈ transactional_produce false false false false ∧
     PEv.abortT ∉ transactional_produce false false false false) ∧
    PEv.abortT ∈ transactional_produce false false true false ∧
    (transactional_produce false false true false).getLast? = some .closeP :=
  ⟨(claim_C10_txn_always_terminated false false false false).2.2.1
     ⟨rfl, rfl, rfl, rfl⟩,
   (claim_C10_txn_always_terminated false false true false).2.2.2.1
     (Or.inr (Or.inr (Or.inl rfl))),
   (claim_C10_txn_always_terminated false false true false).1⟩
